import Mathlib

/-!
Verification of the DankTimesBot scheduling core against its specification.

The development shallowly embeds the TypeScript sources:
* `src/dank-time/dank-time.ts` — the `DankTime` class (a TimeSlot):
  construction with validation, text deduplication, the points setter,
  `hasText`, `toJSON` / `fromJSON`, and `compare`.
* `src/server.ts` — `Server.scheduleNightlyUpdates`: the nightly cycle that,
  for every running chat, unschedules, regenerates, reschedules, runs the
  hardcore-mode check and prunes zero-score users.

JavaScript numbers are modelled as rationals (`Rat`), so the `x % 1 !== 0`
wholeness checks of the source are meaningful; a thrown `RangeError` is
modelled as an `Except.error` carrying the source's message string.
-/

/-- `q % 1 === 0` for a JavaScript number: the value is a whole number. -/
def isWholeNumber (q : Rat) : Bool := q.den == 1

/-- The literal shape used by `toJSON` / `fromJSON` (`basic-dank-time.ts`). -/
structure BasicDankTime where
  hour : Rat
  minute : Rat
  texts : List String
  points : Rat
deriving DecidableEq, Repr

/-- The `DankTime` class state: `hour`, `minute`, the deduplicated `texts`
array, and the private `_points` field. -/
structure DankTime where
  hour : Rat
  minute : Rat
  texts : List String
  points : Rat
deriving DecidableEq, Repr

/-- The constructor's text-deduplication loop:
`texts.forEach(text => { if (this.texts.indexOf(text) === -1) this.texts.push(text); })`.
`acc` is the `this.texts` array built so far. Note `indexOf` compares
strings exactly (case-sensitively). -/
def dedupTexts (acc : List String) : List String → List String
  | [] => acc
  | t :: ts => if acc.contains t then dedupTexts acc ts else dedupTexts (acc ++ [t]) ts

/-- `set points(points)`: throws a `RangeError` (leaving `_points` untouched)
unless the value is a whole number between 1 and 100. The returned `Bool`
records whether the setter threw; on a throw the returned state is the
unchanged receiver. -/
def DankTime.setPoints (dt : DankTime) (p : Rat) : DankTime × Bool :=
  if ¬ isWholeNumber p ∨ p < 1 ∨ p > 100 then (dt, true)
  else ({ dt with points := p }, false)

/-- The `DankTime` constructor: validates hour, minute and texts in order,
deduplicates the texts, then assigns `points` through the setter.
A thrown `RangeError` becomes `Except.error` with the source's message. -/
def DankTime.construct (hour minute : Rat) (texts : List String) (points : Rat) :
    Except String DankTime :=
  if ¬ isWholeNumber hour ∨ hour < 0 ∨ hour > 23 then
    .error "The hour must be a whole number between 0 and 23!"
  else if ¬ isWholeNumber minute ∨ minute < 0 ∨ minute > 59 then
    .error "The minute must be a whole number between 0 and 59!"
  else if texts.length < 1 then
    .error "The texts must be a string array containing at least one item!"
  else
    match DankTime.setPoints ⟨hour, minute, dedupTexts [] texts, 0⟩ points with
    | (_, true) => .error "The points must be a whole number between 1 and 100!"
    | (dt, false) => .ok dt

/-- `String.prototype.toUpperCase()`, character by character. -/
def jsToUpper (s : String) : String := ⟨s.data.map Char.toUpper⟩

/-- `hasText(text)`: uppercases the query and scans the stored texts,
uppercasing each, for an exact match. -/
def DankTime.hasText (dt : DankTime) (text : String) : Bool :=
  dt.texts.any fun t2 => jsToUpper t2 == jsToUpper text

/-- `toJSON()`: the literal representation `{ hour, minute, texts, points }`. -/
def DankTime.toJSON (dt : DankTime) : BasicDankTime :=
  ⟨dt.hour, dt.minute, dt.texts, dt.points⟩

/-- `DankTime.fromJSON(literal)`: runs the constructor on the literal's fields. -/
def DankTime.fromJSON (l : BasicDankTime) : Except String DankTime :=
  DankTime.construct l.hour l.minute l.texts l.points

/-- `DankTime.compare(a, b)`: orders by hour, then minute. -/
def DankTime.compare (a b : DankTime) : Int :=
  if a.hour < b.hour then -1
  else if a.hour > b.hour then 1
  else if a.minute < b.minute then -1
  else if a.minute > b.minute then 1
  else 0

/-- The constructor's hour check, as a predicate on the input. -/
def validHour (h : Rat) : Prop := isWholeNumber h = true ∧ 0 ≤ h ∧ h ≤ 23

/-- The constructor's minute check, as a predicate on the input. -/
def validMinute (m : Rat) : Prop := isWholeNumber m = true ∧ 0 ≤ m ∧ m ≤ 59

/-- The points setter's check, as a predicate on the input. -/
def validPoints (p : Rat) : Prop := isWholeNumber p = true ∧ 1 ≤ p ∧ p ≤ 100

instance (h : Rat) : Decidable (validHour h) := by unfold validHour; infer_instance
instance (m : Rat) : Decidable (validMinute m) := by unfold validMinute; infer_instance
instance (p : Rat) : Decidable (validPoints p) := by unfold validPoints; infer_instance

/-! ### The nightly update cycle (`Server.scheduleNightlyUpdates`)

The cron callback reads `now = moment().unix()` once, then runs
`chats.forEach`: for every chat with `running = true` it calls, in order,
`unscheduleRandomDankTimesOfChat`, `unscheduleAutoLeaderboardsOfChat`,
`generateRandomDankTimes`, `scheduleRandomDankTimesOfChat`,
`scheduleAutoLeaderboardsOfChat`, `hardcoreModeCheck(now)` and
`removeUsersWithZeroScore`. The callback body contains no try/catch.

The scheduler and chat methods live behind interfaces, so the cycle is
modelled as the trace of calls it makes; a call that throws is modelled by
an oracle `throws`, and an escaped exception aborts the `forEach` loop. -/

/-- One scheduler/chat call made by the nightly cycle for a chat. -/
inductive NightlyAction
  | unscheduleRandom
  | unscheduleLeaderboard
  | generateRandom
  | scheduleRandom
  | scheduleLeaderboard
  | hardcoreCheck (now : Int)
  | removeZeroScore
deriving DecidableEq, Repr

/-- An observable event of one nightly fire: the single clock read, or a
completed call on one chat. -/
inductive NightlyEvent
  | readClock (t : Int)
  | act (chatId : Nat) (a : NightlyAction)
deriving DecidableEq, Repr

/-- Is the event the clock read? -/
def NightlyEvent.isReadClock : NightlyEvent → Bool
  | .readClock _ => true
  | .act _ _ => false

/-- What the nightly cycle reads from a chat: its id and `running` flag. -/
structure ChatState where
  id : Nat
  running : Bool
deriving DecidableEq, Repr

/-- The body of the per-chat block: the ordered list of calls made for a
running chat, with the cycle-wide `now` passed to the hardcore check. -/
def nightlyChatSteps (now : Int) : List NightlyAction :=
  [.unscheduleRandom, .unscheduleLeaderboard, .generateRandom,
   .scheduleRandom, .scheduleLeaderboard, .hardcoreCheck now, .removeZeroScore]

/-- Run the per-chat calls in order. `throws cid a = true` models the call
throwing. Returns the events of the completed calls and whether an exception
escaped (the source catches nothing). -/
def runNightlySteps (throws : Nat → NightlyAction → Bool) (cid : Nat) :
    List NightlyAction → List NightlyEvent × Bool
  | [] => ([], false)
  | a :: rest =>
    if throws cid a then ([], true)
    else
      match runNightlySteps throws cid rest with
      | (es, err) => (.act cid a :: es, err)

/-- The `chats.forEach` loop: chats in registry order; a chat with
`running = false` is skipped; an exception thrown in the callback propagates
out of `forEach`, so the remaining chats are not visited. -/
def runNightlyChats (throws : Nat → NightlyAction → Bool) (now : Int) :
    List ChatState → List NightlyEvent × Bool
  | [] => ([], false)
  | c :: rest =>
    if c.running then
      match runNightlySteps throws c.id (nightlyChatSteps now) with
      | (es, true) => (es, true)
      | (es, false) =>
        match runNightlyChats throws now rest with
        | (es2, err) => (es ++ es2, err)
    else runNightlyChats throws now rest

/-- One fire of the nightly cron callback: read `now = moment().unix()`
once, then iterate the registry. `clock` supplies successive timestamps the
`moment()` call would return. -/
def nightlyUpdate (throws : Nat → NightlyAction → Bool) (clock : List Int)
    (chats : List ChatState) : List NightlyEvent × Bool :=
  match runNightlyChats throws (clock.headD 0) chats with
  | (es, err) => (.readClock (clock.headD 0) :: es, err)

/-- The calls made on chat `cid`, in order, during a nightly trace. -/
def eventsOf (cid : Nat) (es : List NightlyEvent) : List NightlyAction :=
  es.filterMap fun e =>
    match e with
    | .act c a => if c = cid then some a else none
    | .readClock _ => none

/-- The failure-free oracle: no scheduler or chat call throws. -/
def noNightlyThrow : Nat → NightlyAction → Bool := fun _ _ => false

/-- A failure model where only chat 1's `generateRandomDankTimes` throws. -/
def regenThrowsInChat1 : Nat → NightlyAction → Bool :=
  fun cid a => cid == 1 && a == NightlyAction.generateRandom

/-- A registry of two running chats. -/
def twoRunningChats : List ChatState := [⟨1, true⟩, ⟨2, true⟩]

/-! ### Lemmas about the text-deduplication loop -/

lemma mem_dedupTexts (acc ts : List String) (t : String) :
    t ∈ dedupTexts acc ts ↔ t ∈ acc ∨ t ∈ ts := by
  induction ts generalizing acc with
  | nil => simp [dedupTexts]
  | cons x xs ih =>
    unfold dedupTexts
    by_cases hx : acc.contains x
    · rw [if_pos hx, ih]
      have hx' : x ∈ acc := by simpa using hx
      constructor
      · rintro (h | h)
        · exact Or.inl h
        · exact Or.inr (List.mem_cons_of_mem _ h)
      · rintro (h | h)
        · exact Or.inl h
        · rcases List.mem_cons.mp h with rfl | h
          · exact Or.inl hx'
          · exact Or.inr h
    · rw [if_neg hx, ih]
      simp [or_assoc, List.mem_append]

lemma nodup_dedupTexts (acc ts : List String) (h : acc.Nodup) :
    (dedupTexts acc ts).Nodup := by
  induction ts generalizing acc with
  | nil => simpa [dedupTexts] using h
  | cons x xs ih =>
    unfold dedupTexts
    by_cases hx : acc.contains x
    · rw [if_pos hx]; exact ih acc h
    · rw [if_neg hx]
      refine ih _ ?_
      have hx' : x ∉ acc := by simpa using hx
      simp [List.nodup_append, h, hx']

lemma dedupTexts_of_nodup (acc ts : List String) (hd : ∀ t ∈ ts, t ∉ acc)
    (hn : ts.Nodup) : dedupTexts acc ts = acc ++ ts := by
  induction ts generalizing acc with
  | nil => simp [dedupTexts]
  | cons x xs ih =>
    unfold dedupTexts
    have hx : ¬ acc.contains x := by
      simpa using hd x (List.mem_cons_self x xs)
    rw [if_neg hx]
    rw [ih (acc ++ [x]) ?_ hn.of_cons]
    · simp
    · intro t ht
      simp only [List.mem_append, List.mem_singleton]
      rintro (h | rfl)
      · exact hd t (List.mem_cons_of_mem _ ht) h
      · exact (List.nodup_cons.mp hn).1 ht

lemma dedupTexts_idem (ts : List String) :
    dedupTexts [] (dedupTexts [] ts) = dedupTexts [] ts := by
  simpa using dedupTexts_of_nodup [] (dedupTexts [] ts) (by simp)
    (nodup_dedupTexts [] ts List.nodup_nil)

lemma dedupTexts_ne_nil (ts : List String) (h : ts ≠ []) :
    dedupTexts [] ts ≠ [] := by
  rcases List.exists_mem_of_ne_nil ts h with ⟨t, ht⟩
  have : t ∈ dedupTexts [] ts := (mem_dedupTexts [] ts t).mpr (Or.inr ht)
  exact List.ne_nil_of_mem this

/-! ### Characterisation of the constructor -/

lemma construct_eq_ok (hour minute points : Rat) (texts : List String)
    (hh : validHour hour) (hm : validMinute minute) (ht : texts ≠ [])
    (hp : validPoints points) :
    DankTime.construct hour minute texts points =
      .ok ⟨hour, minute, dedupTexts [] texts, points⟩ := by
  obtain ⟨hh1, hh2, hh3⟩ := hh
  obtain ⟨hm1, hm2, hm3⟩ := hm
  obtain ⟨hp1, hp2, hp3⟩ := hp
  unfold DankTime.construct
  rw [if_neg (by push_neg; exact ⟨hh1, hh2, hh3⟩)]
  rw [if_neg (by push_neg; exact ⟨hm1, hm2, hm3⟩)]
  rw [if_neg (by simpa using ht)]
  have : DankTime.setPoints ⟨hour, minute, dedupTexts [] texts, 0⟩ points =
      (⟨hour, minute, dedupTexts [] texts, points⟩, false) := by
    unfold DankTime.setPoints
    rw [if_neg (by push_neg; exact ⟨hp1, hp2, hp3⟩)]
  rw [this]

lemma construct_ok_inv (hour minute points : Rat) (texts : List String)
    (dt : DankTime) (h : DankTime.construct hour minute texts points = .ok dt) :
    validHour hour ∧ validMinute minute ∧ texts ≠ [] ∧ validPoints points ∧
      dt = ⟨hour, minute, dedupTexts [] texts, points⟩ := by
  unfold DankTime.construct at h
  by_cases h1 : ¬ (isWholeNumber hour = true) ∨ hour < 0 ∨ hour > 23
  · rw [if_pos h1] at h; exact absurd h (by simp)
  rw [if_neg h1] at h
  by_cases h2 : ¬ (isWholeNumber minute = true) ∨ minute < 0 ∨ minute > 59
  · rw [if_pos h2] at h; exact absurd h (by simp)
  rw [if_neg h2] at h
  by_cases h3 : texts.length < 1
  · rw [if_pos h3] at h; exact absurd h (by simp)
  rw [if_neg h3] at h
  by_cases h4 : ¬ (isWholeNumber points = true) ∨ points < 1 ∨ points > 100
  · rw [show DankTime.setPoints ⟨hour, minute, dedupTexts [] texts, 0⟩ points =
        (⟨hour, minute, dedupTexts [] texts, 0⟩, true) from by
      unfold DankTime.setPoints; rw [if_pos h4]] at h
    exact absurd h (by simp)
  · rw [show DankTime.setPoints ⟨hour, minute, dedupTexts [] texts, 0⟩ points =
        (⟨hour, minute, dedupTexts [] texts, points⟩, false) from by
      unfold DankTime.setPoints; rw [if_neg h4]] at h
    push_neg at h1 h2 h4
    refine ⟨h1, h2, ?_, h4, (Except.ok.inj h).symm⟩
    intro hnil
    exact h3 (by simp [hnil])

/-! ### Claims about the TimeSlot (DankTime) class -/

/-- C3: Constructing a TimeSlot fails with a construction error (a thrown
`RangeError`, never a clamp) whenever the hour is outside [0,23] or
non-integral, the minute is outside [0,59] or non-integral, the points are
outside [1,100] or non-integral, or the trigger-text list is empty. -/
theorem construct_fails_of_invalid (hour minute points : Rat) (texts : List String)
    (hinv : ¬ validHour hour ∨ ¬ validMinute minute ∨ texts = [] ∨ ¬ validPoints points) :
    ∃ msg, DankTime.construct hour minute texts points = .error msg := by
  rcases hok : DankTime.construct hour minute texts points with msg | dt
  · exact ⟨msg, rfl⟩
  · obtain ⟨hh, hm, ht, hp, _⟩ := construct_ok_inv hour minute points texts dt hok
    rcases hinv with h | h | h | h
    · exact absurd hh h
    · exact absurd hm h
    · exact absurd h ht
    · exact absurd hp h

/-- Witness for C3: the spec's listed invalid inputs — hour 24, minute -1,
points 0, points 101, and an empty text list — all make construction fail. -/
theorem construct_fails_of_invalid_witness :
    (∃ msg, DankTime.construct 24 12 ["a"] 10 = .error msg) ∧
    (∃ msg, DankTime.construct 12 (-1) ["a"] 10 = .error msg) ∧
    (∃ msg, DankTime.construct 12 30 ["a"] 0 = .error msg) ∧
    (∃ msg, DankTime.construct 12 30 ["a"] 101 = .error msg) ∧
    (∃ msg, DankTime.construct 12 30 [] 10 = .error msg) :=
  ⟨construct_fails_of_invalid 24 12 10 ["a"] (Or.inl (by decide)),
   construct_fails_of_invalid 12 (-1) 10 ["a"] (Or.inr (Or.inl (by decide))),
   construct_fails_of_invalid 12 30 0 ["a"] (Or.inr (Or.inr (Or.inr (by decide)))),
   construct_fails_of_invalid 12 30 101 ["a"] (Or.inr (Or.inr (Or.inr (by decide)))),
   construct_fails_of_invalid 12 30 10 [] (Or.inr (Or.inr (Or.inl rfl)))⟩

/-- C4 counterexample: deduplication of trigger texts is case-SENSITIVE
(`Array.prototype.indexOf`), so constructing with `["Go", "go", "GO"]`
stores all three texts, not one. -/
theorem dedup_not_case_insensitive_cex :
    DankTime.construct 9 5 ["Go", "go", "GO"] 1 =
      .ok ⟨9, 5, ["Go", "go", "GO"], 1⟩ ∧
    (⟨9, 5, ["Go", "go", "GO"], 1⟩ : DankTime).texts.length ≠ 1 :=
  ⟨rfl, by decide⟩

/-- C4 amended: trigger texts equal under EXACT (case-sensitive) string
comparison are deduplicated to a single stored entry: the stored list has no
exact duplicates and holds exactly the distinct input texts; texts differing
only in case remain distinct entries. -/
theorem dedup_exact_equality (hour minute points : Rat) (texts : List String)
    (dt : DankTime) (hok : DankTime.construct hour minute texts points = .ok dt) :
    dt.texts.Nodup ∧ ∀ t, t ∈ dt.texts ↔ t ∈ texts := by
  obtain ⟨-, -, -, -, rfl⟩ := construct_ok_inv hour minute points texts dt hok
  refine ⟨nodup_dedupTexts [] texts List.nodup_nil, fun t => ?_⟩
  rw [mem_dedupTexts]
  simp

/-- Witness for C4 amended: duplicated text "go" collapses to one entry. -/
theorem dedup_exact_equality_witness :
    (⟨9, 5, ["go", "up"], 1⟩ : DankTime).texts.Nodup ∧
    ∀ t, t ∈ (⟨9, 5, ["go", "up"], 1⟩ : DankTime).texts ↔ t ∈ ["go", "go", "up"] :=
  dedup_exact_equality 9 5 1 ["go", "go", "up"] ⟨9, 5, ["go", "up"], 1⟩ rfl

/-- C5 counterexample: a DankTime is NOT immutable after construction: the
public `points` setter changes the stored points of a successfully
constructed instance from 1 to 2. -/
theorem setPoints_mutates_cex :
    DankTime.construct 9 5 ["yo"] 1 = .ok ⟨9, 5, ["yo"], 1⟩ ∧
    DankTime.setPoints ⟨9, 5, ["yo"], 1⟩ 2 = (⟨9, 5, ["yo"], 2⟩, false) ∧
    (⟨9, 5, ["yo"], 2⟩ : DankTime).points ≠ (⟨9, 5, ["yo"], 1⟩ : DankTime).points :=
  ⟨rfl, rfl, by decide⟩

/-- C5 amended: after construction the hour, minute and trigger texts are
immutable — the only mutating operation of the class, the `points` setter,
leaves all three unchanged whether it throws or not; only `points` can
change, and only through that validated setter. -/
theorem immutable_except_points (dt : DankTime) (p : Rat) :
    (DankTime.setPoints dt p).1.hour = dt.hour ∧
    (DankTime.setPoints dt p).1.minute = dt.minute ∧
    (DankTime.setPoints dt p).1.texts = dt.texts := by
  unfold DankTime.setPoints
  split <;> simp

/-- C6: For every valid input — hour in [0,23], minute in [0,59], non-empty
texts, points in [1,100], all whole — construction succeeds, and serializing
the constructed TimeSlot with `toJSON` then deserializing with `fromJSON`
yields a TimeSlot equal to the original. -/
theorem construct_roundtrip (hour minute points : Rat) (texts : List String)
    (hh : validHour hour) (hm : validMinute minute) (ht : texts ≠ [])
    (hp : validPoints points) :
    ∃ dt, DankTime.construct hour minute texts points = .ok dt ∧
      DankTime.fromJSON (DankTime.toJSON dt) = .ok dt := by
  refine ⟨⟨hour, minute, dedupTexts [] texts, points⟩,
    construct_eq_ok hour minute points texts hh hm ht hp, ?_⟩
  show DankTime.construct hour minute (dedupTexts [] texts) points = _
  rw [construct_eq_ok hour minute points (dedupTexts [] texts) hh hm
    (dedupTexts_ne_nil texts ht) hp, dedupTexts_idem]

/-- Witness for C6: the TimeSlot (13, 37, ["dank"], 5) round-trips. -/
theorem construct_roundtrip_witness :
    ∃ dt, DankTime.construct 13 37 ["dank"] 5 = .ok dt ∧
      DankTime.fromJSON (DankTime.toJSON dt) = .ok dt :=
  construct_roundtrip 13 37 5 ["dank"] (by decide) (by decide) (by decide) (by decide)


/-- C7: `compare` orders TimeSlots lexicographically by (hour, minute)
ascending: negative iff a's (hour, minute) strictly precedes b's, positive
iff it strictly follows, zero iff hour and minute coincide; in particular
(9,5), (9,30), (10,0) compare as ascending and (9,5) ties with itself. -/
theorem compare_lexicographic :
    (∀ a b : DankTime,
      (DankTime.compare a b < 0 ↔
        (a.hour < b.hour ∨ (a.hour = b.hour ∧ a.minute < b.minute))) ∧
      (DankTime.compare a b > 0 ↔
        (b.hour < a.hour ∨ (b.hour = a.hour ∧ b.minute < a.minute))) ∧
      (DankTime.compare a b = 0 ↔ (a.hour = b.hour ∧ a.minute = b.minute))) ∧
    DankTime.compare ⟨9, 5, ["a"], 1⟩ ⟨9, 30, ["a"], 1⟩ < 0 ∧
    DankTime.compare ⟨9, 30, ["a"], 1⟩ ⟨10, 0, ["a"], 1⟩ < 0 ∧
    DankTime.compare ⟨9, 5, ["a"], 1⟩ ⟨9, 5, ["a"], 1⟩ = 0 := by
  refine ⟨fun a b => ?_, by decide, by decide, by decide⟩
  unfold DankTime.compare
  rcases lt_trichotomy a.hour b.hour with h | h | h
  · rw [if_pos h]
    simp [h, not_lt.mpr h.le, ne_of_gt h, ne_of_lt h, lt_asymm h]
  · rw [if_neg (by simp [h]), if_neg (by simp [h])]
    rcases lt_trichotomy a.minute b.minute with hm | hm | hm
    · rw [if_pos hm]
      simp [h, hm, not_lt.mpr hm.le, ne_of_gt hm, ne_of_lt hm, lt_asymm hm]
    · rw [if_neg (by simp [hm]), if_neg (by simp [hm])]
      simp [h, hm]
    · rw [if_neg (lt_asymm hm), if_pos hm]
      simp [h, hm, not_lt.mpr hm.le, ne_of_gt hm, ne_of_lt hm, lt_asymm hm]
  · rw [if_neg (lt_asymm h), if_pos h]
    simp [h, not_lt.mpr h.le, ne_of_gt h, ne_of_lt h, lt_asymm h]

/-- C8: `hasText` is case-insensitive: it returns true exactly when some
stored trigger text equals the query after uppercasing both; in particular a
TimeSlot built with "Potato" reports true for "POTATO". -/
theorem hasText_case_insensitive :
    (∀ (dt : DankTime) (text : String),
      DankTime.hasText dt text = true ↔
        ∃ t ∈ dt.texts, jsToUpper t = jsToUpper text) ∧
    DankTime.hasText ⟨9, 5, ["Potato"], 1⟩ "POTATO" = true := by
  refine ⟨fun dt text => ?_, by decide⟩
  simp [DankTime.hasText, List.any_eq_true, beq_iff_eq]

/-- C10: assigning to `points` succeeds iff the value is a whole number in
[1,100]; on failure a `RangeError` is thrown and the stored value is
unchanged; hence the points of any DankTime obtained from construction or
from a successful setter call is a whole number in [1,100]. -/
theorem points_setter_invariant :
    (∀ (dt : DankTime) (p : Rat),
      ((DankTime.setPoints dt p).2 = false ↔ validPoints p) ∧
      ((DankTime.setPoints dt p).2 = true → (DankTime.setPoints dt p).1 = dt) ∧
      (validPoints p → DankTime.setPoints dt p = ({ dt with points := p }, false))) ∧
    (∀ (hour minute points : Rat) (texts : List String) (dt : DankTime),
      DankTime.construct hour minute texts points = .ok dt → validPoints dt.points) ∧
    (∀ (dt dt' : DankTime) (p : Rat),
      DankTime.setPoints dt p = (dt', false) → validPoints dt'.points) := by
  have hset : ∀ (dt : DankTime) (p : Rat),
      ((DankTime.setPoints dt p).2 = false ↔ validPoints p) ∧
      ((DankTime.setPoints dt p).2 = true → (DankTime.setPoints dt p).1 = dt) ∧
      (validPoints p → DankTime.setPoints dt p = ({ dt with points := p }, false)) := by
    intro dt p
    unfold DankTime.setPoints
    by_cases hc : ¬ (isWholeNumber p = true) ∨ p < 1 ∨ p > 100
    · rw [if_pos hc]
      have hnv : ¬ validPoints p := by
        rintro ⟨h1, h2, h3⟩
        rcases hc with h | h | h
        · exact h h1
        · exact absurd h2 (not_le.mpr h)
        · exact absurd h3 (not_le.mpr h)
      exact ⟨by simp [hnv], fun _ => rfl, fun hv => absurd hv hnv⟩
    · rw [if_neg hc]
      push_neg at hc
      exact ⟨by simp [validPoints, hc.1, hc.2.1, hc.2.2], by simp, fun _ => rfl⟩
  refine ⟨hset, ?_, ?_⟩
  · intro hour minute points texts dt hok
    obtain ⟨-, -, -, hp, rfl⟩ := construct_ok_inv hour minute points texts dt hok
    exact hp
  · intro dt dt' p hset'
    have h1 := (hset dt p).1
    rw [hset'] at h1
    have hv : validPoints p := h1.mp rfl
    have h2 := (hset dt p).2.2 hv
    rw [hset'] at h2
    have h3 : dt' = { dt with points := p } := by
      have := congrArg Prod.fst h2
      simpa using this
    rw [h3]
    exact hv

/-- Witness for C10: setting points to 50 on a constructed DankTime succeeds
and the resulting points value satisfies the invariant. -/
theorem points_setter_invariant_witness :
    DankTime.setPoints ⟨9, 5, ["w"], 1⟩ 50 = (⟨9, 5, ["w"], 50⟩, false) ∧
    validPoints ((⟨9, 5, ["w"], 50⟩ : DankTime)).points :=
  ⟨(points_setter_invariant.1 ⟨9, 5, ["w"], 1⟩ 50).2.2 (by decide),
   points_setter_invariant.2.2 ⟨9, 5, ["w"], 1⟩ ⟨9, 5, ["w"], 50⟩ 50
     ((points_setter_invariant.1 ⟨9, 5, ["w"], 1⟩ 50).2.2 (by decide))⟩

lemma runNightlySteps_noThrow (throws : Nat → NightlyAction → Bool)
    (h : ∀ cid a, throws cid a = false) (cid : Nat) (steps : List NightlyAction) :
    runNightlySteps throws cid steps = (steps.map (.act cid), false) := by
  induction steps with
  | nil => rfl
  | cons a rest ih => simp [runNightlySteps, h, ih]

lemma eventsOf_append (cid : Nat) (es es2 : List NightlyEvent) :
    eventsOf cid (es ++ es2) = eventsOf cid es ++ eventsOf cid es2 :=
  List.filterMap_append _ _ _

lemma eventsOf_map_act_self (cid : Nat) (steps : List NightlyAction) :
    eventsOf cid (steps.map (.act cid)) = steps := by
  induction steps with
  | nil => rfl
  | cons a rest ih => simp_all [eventsOf, List.filterMap_cons]

lemma eventsOf_map_act_ne (cid cid' : Nat) (h : cid' ≠ cid) (steps : List NightlyAction) :
    eventsOf cid (steps.map (.act cid')) = [] := by
  induction steps with
  | nil => rfl
  | cons a rest ih => simp_all [eventsOf, List.filterMap_cons, h]

lemma runNightlySteps_mem (throws : Nat → NightlyAction → Bool) (cid : Nat)
    (steps : List NightlyAction) (e : NightlyEvent)
    (he : e ∈ (runNightlySteps throws cid steps).1) :
    ∃ a ∈ steps, e = .act cid a := by
  induction steps with
  | nil => simp [runNightlySteps] at he
  | cons a rest ih =>
    unfold runNightlySteps at he
    by_cases hta : throws cid a
    · rw [if_pos hta] at he; simp at he
    · rw [if_neg hta] at he
      rcases hrs : runNightlySteps throws cid rest with ⟨es, err⟩
      rw [hrs] at he
      simp only [List.mem_cons] at he
      rcases he with rfl | he
      · exact ⟨a, List.mem_cons_self a rest, rfl⟩
      · rcases ih (by rw [hrs]; exact he) with ⟨a', ha', rfl⟩
        exact ⟨a', List.mem_cons_of_mem _ ha', rfl⟩

lemma runNightlyChats_mem (throws : Nat → NightlyAction → Bool) (now : Int)
    (chats : List ChatState) (e : NightlyEvent)
    (he : e ∈ (runNightlyChats throws now chats).1) :
    ∃ c ∈ chats, ∃ a ∈ nightlyChatSteps now, e = .act c.id a := by
  induction chats with
  | nil => simp [runNightlyChats] at he
  | cons c rest ih =>
    unfold runNightlyChats at he
    by_cases hr : c.running
    · rw [if_pos hr] at he
      rcases hrs : runNightlySteps throws c.id (nightlyChatSteps now) with ⟨es, err⟩
      rw [hrs] at he
      cases err with
      | true =>
        simp only at he
        rcases runNightlySteps_mem throws c.id _ e (by rw [hrs]; exact he) with ⟨a, ha, rfl⟩
        exact ⟨c, List.mem_cons_self c rest, a, ha, rfl⟩
      | false =>
        rcases hrc : runNightlyChats throws now rest with ⟨es2, err2⟩
        rw [hrc] at he
        simp only [List.mem_append] at he
        rcases he with he | he
        · rcases runNightlySteps_mem throws c.id _ e (by rw [hrs]; exact he) with ⟨a, ha, rfl⟩
          exact ⟨c, List.mem_cons_self c rest, a, ha, rfl⟩
        · rcases ih (by rw [hrc]; exact he) with ⟨c', hc', a, ha, rfl⟩
          exact ⟨c', List.mem_cons_of_mem _ hc', a, ha, rfl⟩
    · rw [if_neg hr] at he
      rcases ih he with ⟨c', hc', a, ha, rfl⟩
      exact ⟨c', List.mem_cons_of_mem _ hc', a, ha, rfl⟩

lemma eventsOf_not_mem (throws : Nat → NightlyAction → Bool) (now : Int)
    (chats : List ChatState) (cid : Nat) (h : cid ∉ chats.map ChatState.id) :
    eventsOf cid (runNightlyChats throws now chats).1 = [] := by
  rw [eventsOf, List.filterMap_eq_nil_iff]
  intro e he
  rcases runNightlyChats_mem throws now chats e he with ⟨c, hc, a, _, rfl⟩
  have : c.id ≠ cid := fun hEq => h (hEq ▸ List.mem_map_of_mem ChatState.id hc)
  simp [this]

/-- C1: On each nightly fire with no call throwing, every running chat in a
registry of distinct chat ids has exactly this call sequence performed for
it, in this order: unschedule random dank times, unschedule auto
leaderboards, generate random dank times, schedule random dank times,
schedule auto leaderboards, hardcore-mode check, remove zero-score users —
so both unschedule calls complete before regeneration begins and
regeneration completes before either reschedule call begins. -/
theorem nightly_cycle_order (throws : Nat → NightlyAction → Bool)
    (clock : List Int) (chats : List ChatState) (c : ChatState)
    (hnothrow : ∀ cid a, throws cid a = false)
    (hids : (chats.map ChatState.id).Nodup)
    (hc : c ∈ chats) (hrun : c.running = true) :
    eventsOf c.id (nightlyUpdate throws clock chats).1 =
      nightlyChatSteps (clock.headD 0) := by
  unfold nightlyUpdate
  rcases hrc : runNightlyChats throws (clock.headD 0) chats with ⟨es, err⟩
  have hes : eventsOf c.id es = nightlyChatSteps (clock.headD 0) := by
    have main : ∀ chats' : List ChatState, (chats'.map ChatState.id).Nodup →
        c ∈ chats' →
        eventsOf c.id (runNightlyChats throws (clock.headD 0) chats').1 =
          nightlyChatSteps (clock.headD 0) := by
      intro chats'
      induction chats' with
      | nil => intro _ hmem; simp at hmem
      | cons c' rest ih =>
        intro hnd hmem
        unfold runNightlyChats
        rw [runNightlySteps_noThrow throws hnothrow]
        simp only [List.map_cons, List.nodup_cons] at hnd
        rcases List.mem_cons.mp hmem with rfl | hmem'
        · rw [if_pos hrun]
          rcases hrc2 : runNightlyChats throws (clock.headD 0) rest with ⟨es2, err2⟩
          simp only
          rw [eventsOf_append, eventsOf_map_act_self]
          have : eventsOf c.id es2 = [] := by
            have := eventsOf_not_mem throws (clock.headD 0) rest c.id hnd.1
            rw [hrc2] at this
            exact this
          rw [this, List.append_nil]
        · have hne : c'.id ≠ c.id := by
            intro hEq
            exact hnd.1 (hEq ▸ List.mem_map_of_mem ChatState.id hmem')
          by_cases hr : c'.running
          · rw [if_pos hr]
            rcases hrc2 : runNightlyChats throws (clock.headD 0) rest with ⟨es2, err2⟩
            simp only
            rw [eventsOf_append, eventsOf_map_act_ne c.id c'.id hne]
            have := ih hnd.2 hmem'
            rw [hrc2] at this
            simpa using this
          · rw [if_neg hr]
            exact ih hnd.2 hmem'
    have := main chats hids hc
    rw [hrc] at this
    exact this
  simp only [eventsOf, List.filterMap_cons]
  exact hes

/-- Witness for C1: in a two-chat registry with no failures, chat 1's calls
are exactly the seven steps in order. -/
theorem nightly_cycle_order_witness :
    eventsOf 1 (nightlyUpdate noNightlyThrow [7] twoRunningChats).1 =
      nightlyChatSteps 7 :=
  nightly_cycle_order noNightlyThrow [7] twoRunningChats ⟨1, true⟩
    (fun _ _ => rfl) (by decide) (by decide) rfl

lemma runNightlyChats_cons_skip {throws : Nat → NightlyAction → Bool} {now : Int}
    {c : ChatState} {rest : List ChatState} (hr : ¬ c.running = true) :
    runNightlyChats throws now (c :: rest) = runNightlyChats throws now rest := by
  conv_lhs => rw [runNightlyChats]
  rw [if_neg hr]

lemma runNightlyChats_cons_throw {throws : Nat → NightlyAction → Bool} {now : Int}
    {c : ChatState} {rest : List ChatState} {es : List NightlyEvent}
    (hr : c.running = true)
    (hrs : runNightlySteps throws c.id (nightlyChatSteps now) = (es, true)) :
    runNightlyChats throws now (c :: rest) = (es, true) := by
  conv_lhs => rw [runNightlyChats]
  rw [if_pos hr, hrs]

lemma runNightlyChats_cons_run {throws : Nat → NightlyAction → Bool} {now : Int}
    {c : ChatState} {rest : List ChatState} {es : List NightlyEvent}
    (hr : c.running = true)
    (hrs : runNightlySteps throws c.id (nightlyChatSteps now) = (es, false)) :
    runNightlyChats throws now (c :: rest) =
      (es ++ (runNightlyChats throws now rest).1, (runNightlyChats throws now rest).2) := by
  conv_lhs => rw [runNightlyChats]
  rw [if_pos hr, hrs]

/-- C2 counterexample: the nightly callback has no try/catch, so with two
running chats where chat 1's `generateRandomDankTimes` throws, the exception
escapes the cycle (`.2 = true`) and chat 2 receives NO calls at all — the
coordinator does not process the remaining rooms, contradicting the claimed
per-room isolation. -/
theorem nightly_failure_not_isolated_cex :
    (nightlyUpdate regenThrowsInChat1 [1700000000] twoRunningChats).2 = true ∧
    eventsOf 2 (nightlyUpdate regenThrowsInChat1 [1700000000] twoRunningChats).1 = [] ∧
    eventsOf 1 (nightlyUpdate regenThrowsInChat1 [1700000000] twoRunningChats).1 =
      [.unscheduleRandom, .unscheduleLeaderboard] :=
  ⟨rfl, rfl, rfl⟩

/-- C2 amended: a thrown error while processing one room's nightly sequence
is not caught: it propagates out of the `forEach` loop, so the trace of the
fire is exactly the clock read, the events of the rooms before the failing
room, and the failing room's partial events — rooms after it in the registry
are not processed in that cycle. -/
theorem nightly_failure_propagates (throws : Nat → NightlyAction → Bool)
    (clock : List Int) (pre : List ChatState) (c : ChatState) (post : List ChatState)
    (hpre : ∀ c' ∈ pre, c'.running = true →
      (runNightlySteps throws c'.id (nightlyChatSteps (clock.headD 0))).2 = false)
    (hrun : c.running = true)
    (hthrow : (runNightlySteps throws c.id (nightlyChatSteps (clock.headD 0))).2 = true) :
    (nightlyUpdate throws clock (pre ++ c :: post)).1 =
      .readClock (clock.headD 0) ::
        ((runNightlyChats throws (clock.headD 0) pre).1 ++
          (runNightlySteps throws c.id (nightlyChatSteps (clock.headD 0))).1) ∧
    (nightlyUpdate throws clock (pre ++ c :: post)).2 = true := by
  have main : ∀ pre' : List ChatState,
      (∀ c' ∈ pre', c'.running = true →
        (runNightlySteps throws c'.id (nightlyChatSteps (clock.headD 0))).2 = false) →
      runNightlyChats throws (clock.headD 0) (pre' ++ c :: post) =
        ((runNightlyChats throws (clock.headD 0) pre').1 ++
          (runNightlySteps throws c.id (nightlyChatSteps (clock.headD 0))).1, true) := by
    intro pre'
    induction pre' with
    | nil =>
      intro _
      rcases hrs : runNightlySteps throws c.id (nightlyChatSteps (clock.headD 0)) with ⟨es, err⟩
      have herr : err = true := by rw [hrs] at hthrow; exact hthrow
      subst herr
      simp only [List.nil_append]
      rw [runNightlyChats_cons_throw hrun hrs]
      simp [runNightlyChats]
    | cons c' rest ih =>
      intro hpre'
      have ihr := ih fun c'' hc'' hr'' => hpre' c'' (List.mem_cons_of_mem _ hc'') hr''
      by_cases hr : c'.running = true
      · rcases hrs : runNightlySteps throws c'.id (nightlyChatSteps (clock.headD 0)) with ⟨es, err⟩
        have herr : err = false := by
          have h2 := hpre' c' (List.mem_cons_self c' rest) hr
          rw [hrs] at h2
          exact h2
        subst herr
        rw [List.cons_append, runNightlyChats_cons_run hr hrs, ihr,
          runNightlyChats_cons_run hr hrs]
        simp [List.append_assoc]
      · rw [List.cons_append, runNightlyChats_cons_skip hr, ihr,
          runNightlyChats_cons_skip hr]
  unfold nightlyUpdate
  rw [main pre hpre]
  exact ⟨rfl, rfl⟩

/-- Witness for C2 amended: with registry [chat 3, chat 1, chat 2] and chat
1's regeneration throwing, the cycle ends at chat 1's failure. -/
theorem nightly_failure_propagates_witness :
    (nightlyUpdate regenThrowsInChat1 [5] ([⟨3, true⟩] ++ ⟨1, true⟩ :: [⟨2, true⟩])).1 =
      .readClock 5 ::
        ((runNightlyChats regenThrowsInChat1 5 [⟨3, true⟩]).1 ++
          (runNightlySteps regenThrowsInChat1 1 (nightlyChatSteps 5)).1) ∧
    (nightlyUpdate regenThrowsInChat1 [5] ([⟨3, true⟩] ++ ⟨1, true⟩ :: [⟨2, true⟩])).2 = true :=
  nightly_failure_propagates regenThrowsInChat1 [5] [⟨3, true⟩] ⟨1, true⟩ [⟨2, true⟩]
    (by decide) rfl (by decide)

lemma runNightlyChats_no_readClock (throws : Nat → NightlyAction → Bool)
    (now : Int) (chats : List ChatState) (e : NightlyEvent)
    (he : e ∈ (runNightlyChats throws now chats).1) : e.isReadClock = false := by
  rcases runNightlyChats_mem throws now chats e he with ⟨c, _, a, _, rfl⟩
  rfl

/-- C9: within one nightly cycle the "now" timestamp is read exactly once
(one clock-read event in the trace), before any room is processed (it is the
first event), and every hardcore-mode check performed in the cycle receives
exactly that timestamp, for any registry and any failure pattern. -/
theorem nightly_now_read_once (throws : Nat → NightlyAction → Bool)
    (clock : List Int) (chats : List ChatState) :
    (nightlyUpdate throws clock chats).1.countP NightlyEvent.isReadClock = 1 ∧
    (nightlyUpdate throws clock chats).1.head? =
      some (.readClock (clock.headD 0)) ∧
    ∀ cid t, NightlyEvent.act cid (.hardcoreCheck t) ∈ (nightlyUpdate throws clock chats).1 →
      t = clock.headD 0 := by
  unfold nightlyUpdate
  rcases hrc : runNightlyChats throws (clock.headD 0) chats with ⟨es, err⟩
  refine ⟨?_, rfl, ?_⟩
  · simp only [List.countP_cons]
    have h0 : es.countP NightlyEvent.isReadClock = 0 := by
      rw [List.countP_eq_zero]
      intro e he
      have := runNightlyChats_no_readClock throws (clock.headD 0) chats e
        (by rw [hrc]; exact he)
      simp [this]
    simp [h0, NightlyEvent.isReadClock]
  · intro cid t ht
    simp only [List.mem_cons] at ht
    rcases ht with h | h
    · cases h
    · rcases runNightlyChats_mem throws (clock.headD 0) chats _
        (by rw [hrc]; exact h) with ⟨c, _, a, ha, hEq⟩
      injection hEq with h1 h2
      rw [← h2] at ha
      simpa [nightlyChatSteps] using ha

/-- Witness for C9: a concrete two-chat cycle reads the clock once, first,
and passes 42 to every hardcore check. -/
theorem nightly_now_read_once_witness :
    (nightlyUpdate noNightlyThrow [42] twoRunningChats).1.countP
        NightlyEvent.isReadClock = 1 ∧
    (nightlyUpdate noNightlyThrow [42] twoRunningChats).1.head? =
      some (.readClock 42) ∧
    ∀ cid t, NightlyEvent.act cid (.hardcoreCheck t) ∈
        (nightlyUpdate noNightlyThrow [42] twoRunningChats).1 → t = 42 :=
  nightly_now_read_once noNightlyThrow [42] twoRunningChats
